import Mathlib

/-!
A shallow embedding of the event-dispatcher module (`src/index.ts`):
the untyped dispatcher `NodeEventEmitter` and the typed facade
`EventEmitter`, together with theorems settling the behavioural claims
about registration, one-shot listeners, removal, introspection and
synchronous emission.

Modelling conventions, matching the JavaScript runtime semantics of the
source:

* Handler functions are identified by reference; the embedding names them
  by `FuncId` (a natural number), and reference equality (`===`) becomes
  decidable equality of identifiers.  The `once` wrapper closure is a
  distinct callable whose behaviour is fully determined by the captured
  `(event, listener)` pair, so a listener entry's invocation target is
  either the original handler or such a wrapper.
* Event keys are strings or symbols (`Key.str` / `Key.sym`).  Symbols are
  identity tokens distinct from every string; the embedding names them by
  numbers.
* `_event_listeners` is a JavaScript plain object: a finite map from keys
  to array objects, with string-key insertion order (the object can never
  hold a duplicate key).  Arrays are mutable heap objects: `on`/`once`
  push onto the array in place, while `off` rebinds the key to a fresh
  filtered array, leaving the old array object intact.  To capture this
  aliasing (it is observable: `emit` iterates the array object it fetched
  at loop start), the state carries an explicit array heap, and the
  registry maps each key to an array reference (an index into the heap).
  Arrays are only ever appended to the heap, never deallocated, which
  matches garbage objects simply becoming unreachable.
* The behaviour of a handler, when invoked, is modelled as a finite
  sequence of registry operations (`Cmd`) given by an environment
  `B : FuncId → List Cmd`; a handler with `B f = []` is a plain handler
  that does not touch the emitter.  Nested emission is not modelled.
  Since a handler's body may keep extending the array `emit` is
  iterating, the emit loop is written with explicit fuel and returns
  `none` when the fuel runs out.
* `emit` additionally returns the ghost list of original handlers
  invoked during the call, in invocation order, so that theorems can
  speak about which listeners ran.
-/

/-- Identity of a caller-supplied handler function (reference equality). -/
abbrev FuncId := Nat

/-- An event key: a string or a symbol (`string | symbol` in the source). -/
inductive Key where
  | str (s : String)
  | sym (n : Nat)
deriving DecidableEq, Repr

/-- The invocation target stored in a listener entry: the original handler
itself (entries made by `on`), or the self-removing wrapper closure made by
`once`, determined by its captured event key and original handler. -/
inductive Target where
  | plain (f : FuncId)
  | wrapper (e : Key) (f : FuncId)
deriving DecidableEq, Repr

/-- One listener entry `[listener, callback]`: the original handler paired
with the invocation target. -/
abbrev Entry := FuncId × Target

/-- The dispatcher state: the array heap together with the
`_event_listeners` object, a key-insertion-ordered association of event
keys to array references (indices into `arrays`). -/
structure NodeEventEmitter where
  arrays : List (List Entry)
  registry : List (Key × Nat)
deriving DecidableEq, Repr

namespace NodeEventEmitter

/-- A freshly constructed dispatcher: `_event_listeners = {}`. -/
def init : NodeEventEmitter := ⟨[], []⟩

/-- Property read `this._event_listeners[event]`: the array reference held for `event`,
if the key is present.  The truthiness test `!this._event_listeners[event]`
in the source is exactly `lookupRef s e = none`: a present value is always
an array, and every array (empty or not) is truthy. -/
def lookupRef (s : NodeEventEmitter) (e : Key) : Option Nat :=
  (s.registry.find? (fun p => decide (p.1 = e))).map Prod.snd

/-- Dereference an array reference in the heap. -/
def getArr (s : NodeEventEmitter) (r : Nat) : List Entry := s.arrays.getD r []

/-- The entries currently held for `event` (empty when the key is absent). -/
def entriesOf (s : NodeEventEmitter) (e : Key) : List Entry :=
  match s.lookupRef e with
  | none => []
  | some r => s.getArr r

/-- Source `on(event, listener)`: create the array if the key is absent, then push
`[listener, listener]` onto it in place. -/
def «on» (s : NodeEventEmitter) (e : Key) (f : FuncId) : NodeEventEmitter :=
  match s.lookupRef e with
  | none =>
      { arrays := s.arrays ++ [[(f, Target.plain f)]]
        registry := s.registry ++ [(e, s.arrays.length)] }
  | some r =>
      { s with arrays := s.arrays.set r (s.getArr r ++ [(f, Target.plain f)]) }

/-- Source `once(event, listener)`: as `on`, but the pushed entry pairs the
original handler with the wrapper closure capturing `(event, listener)`. -/
def once (s : NodeEventEmitter) (e : Key) (f : FuncId) : NodeEventEmitter :=
  match s.lookupRef e with
  | none =>
      { arrays := s.arrays ++ [[(f, Target.wrapper e f)]]
        registry := s.registry ++ [(e, s.arrays.length)] }
  | some r =>
      { s with arrays := s.arrays.set r (s.getArr r ++ [(f, Target.wrapper e f)]) }

/-- Source `off(event, listener)`: when the key is present, rebind it to a fresh
array holding the entries whose original handler (`[l]` in the source's
destructuring) is not `listener`; the old array object stays in the heap.
Assignment to a present object key keeps its insertion position. -/
def off (s : NodeEventEmitter) (e : Key) (f : FuncId) : NodeEventEmitter :=
  match s.lookupRef e with
  | none => s
  | some r =>
      { arrays := s.arrays ++ [(s.getArr r).filter (fun p => decide (p.1 ≠ f))]
        registry := s.registry.map (fun p => if p.1 = e then (e, s.arrays.length) else p) }

/-- Source `removeListener`: an alias of `off`. -/
def removeListener (s : NodeEventEmitter) (e : Key) (f : FuncId) : NodeEventEmitter :=
  s.off e f

/-- JavaScript truthiness of the optional `event` argument of
`removeAllListeners`: `undefined` and the empty string are falsy, every
other string and every symbol is truthy. -/
def keyFalsy : Key → Bool
  | Key.str s => decide (s = "")
  | Key.sym _ => false

/-- Source `removeAllListeners(event?)`: on a falsy argument assign a fresh empty
object to `_event_listeners`; otherwise `delete` the key. -/
def removeAllListeners (s : NodeEventEmitter) (e : Option Key) : NodeEventEmitter :=
  match e with
  | none => { s with registry := [] }
  | some k =>
      if keyFalsy k then { s with registry := [] }
      else { s with registry := s.registry.filter (fun p => decide (p.1 ≠ k)) }

/-- Source `listeners(event)`: the original handlers (`[l]`) of the entries held
for `event`, in order; `[]` when the key is absent. -/
def listeners (s : NodeEventEmitter) (e : Key) : List FuncId :=
  match s.lookupRef e with
  | none => []
  | some r => (s.getArr r).map Prod.fst

/-- Source `rawListeners(event)`: textually the same body as `listeners` in the
source. -/
def rawListeners (s : NodeEventEmitter) (e : Key) : List FuncId :=
  match s.lookupRef e with
  | none => []
  | some r => (s.getArr r).map Prod.fst

/-- Source `listenerCount(event)`: the length of the array held for `event`, `0`
when the key is absent. -/
def listenerCount (s : NodeEventEmitter) (e : Key) : Nat :=
  match s.lookupRef e with
  | none => 0
  | some r => (s.getArr r).length

/-- Source `eventNames()` is `Object.keys(this._event_listeners)`: the own
enumerable STRING keys of the object — symbol keys are not returned by
`Object.keys`.  The embedding keeps key insertion order (JavaScript
additionally fronts integer-like string keys in numeric order; no claim
here depends on the order of the returned collection). -/
def eventNames (s : NodeEventEmitter) : List Key :=
  s.registry.filterMap (fun p =>
    match p.1 with
    | Key.str a => some (Key.str a)
    | Key.sym _ => none)

end NodeEventEmitter

/-- A registry operation a handler body may perform on the dispatcher that
invoked it (nested emission is not modelled). -/
inductive Cmd where
  | «on» (e : Key) (f : FuncId)
  | once (e : Key) (f : FuncId)
  | off (e : Key) (f : FuncId)
  | removeListener (e : Key) (f : FuncId)
  | removeAllListeners (e : Option Key)
deriving DecidableEq, Repr

/-- Handler bodies: what each handler does to the dispatcher when invoked. -/
abbrev Bodies := FuncId → List Cmd

/-- Run one body command on the dispatcher state. -/
def runCmd (s : NodeEventEmitter) : Cmd → NodeEventEmitter
  | Cmd.«on» e f => s.«on» e f
  | Cmd.once e f => s.once e f
  | Cmd.off e f => s.off e f
  | Cmd.removeListener e f => s.removeListener e f
  | Cmd.removeAllListeners e => s.removeAllListeners e

/-- Invoke a handler: its body's commands run in order. -/
def runBody (B : Bodies) (s : NodeEventEmitter) (f : FuncId) : NodeEventEmitter :=
  (B f).foldl runCmd s

/-- Invoke an entry's invocation target (`callback(...args)`), recording the
original handler that got called.  A `once` wrapper first performs
`this.removeListener(event, listener)` on the current state, then forwards
to the original handler. -/
def invokeTarget (B : Bodies) (s : NodeEventEmitter) (log : List FuncId) :
    Target → NodeEventEmitter × List FuncId
  | Target.plain f => (runBody B s f, log ++ [f])
  | Target.wrapper e f => (runBody B (s.off e f) f, log ++ [f])

/-- The `for...of` loop of `emit` over the array object `r` fetched at loop
start: at each step the iterator re-checks the CURRENT length of that array
object and reads its CURRENT element at the index, so entries pushed onto it
during the loop are visited, while a rebinding of the registry key (by
`off`) does not affect the iteration.  Fuel bounds the number of steps;
`none` means the fuel ran out. -/
def emitLoop (B : Bodies) (fuel : Nat) (r : Nat) (i : Nat) (s : NodeEventEmitter)
    (log : List FuncId) : Option (NodeEventEmitter × List FuncId) :=
  match fuel with
  | 0 => none
  | fuel + 1 =>
      let arr := s.getArr r
      if h : i < arr.length then
        let p := invokeTarget B s log (arr.get ⟨i, h⟩).2
        emitLoop B fuel r (i + 1) p.1 p.2
      else some (s, log)

/-- Source `emit(event, ...args)`: `false` immediately when the key is absent;
otherwise iterate the current array object and return `true`.  The result
also carries the ghost invocation log.  (The forwarded `args` play no role
in the registry semantics and are omitted.) -/
def NodeEventEmitter.emit (B : Bodies) (fuel : Nat) (s : NodeEventEmitter) (e : Key) :
    Option (Bool × NodeEventEmitter × List FuncId) :=
  match s.lookupRef e with
  | none => some (false, s, [])
  | some r => (emitLoop B fuel r 0 s []).map (fun p => (true, p.1, p.2))

/-- The typed facade: `class EventEmitter<T>` holds a private untyped
dispatcher (`private readonly emitter = new NodeEventEmitter()`); the type
parameter exists only at compile time and has no runtime content, so it
does not appear in the embedding. -/
structure EventEmitter where
  emitter : NodeEventEmitter
deriving DecidableEq, Repr

namespace EventEmitter

/-- Construction `new SomeEmitter()`: a fresh inner dispatcher. -/
def init : EventEmitter := ⟨NodeEventEmitter.init⟩

/-- Facade `on`: `this.emitter.on(event, listener); return this`. -/
def «on» (t : EventEmitter) (e : Key) (f : FuncId) : EventEmitter :=
  ⟨t.emitter.«on» e f⟩

/-- Facade `once`: `this.emitter.once(event, listener); return this`. -/
def once (t : EventEmitter) (e : Key) (f : FuncId) : EventEmitter :=
  ⟨t.emitter.once e f⟩

/-- Facade `emit`: `return this.emitter.emit(event, ...args)`. -/
def emit (B : Bodies) (fuel : Nat) (t : EventEmitter) (e : Key) :
    Option (Bool × EventEmitter × List FuncId) :=
  (t.emitter.emit B fuel e).map (fun p => (p.1, ⟨p.2.1⟩, p.2.2))

/-- Facade `off`: `this.emitter.off(event, listener); return this`. -/
def off (t : EventEmitter) (e : Key) (f : FuncId) : EventEmitter :=
  ⟨t.emitter.off e f⟩

/-- Facade `removeListener`: forwards to the inner `removeListener`. -/
def removeListener (t : EventEmitter) (e : Key) (f : FuncId) : EventEmitter :=
  ⟨t.emitter.removeListener e f⟩

/-- Facade `removeAllListeners`: forwards the optional key unchanged. -/
def removeAllListeners (t : EventEmitter) (e : Option Key) : EventEmitter :=
  ⟨t.emitter.removeAllListeners e⟩

/-- Facade `listeners`: `return this.emitter.listeners(event) as T[K][]`
— the cast is purely static. -/
def listeners (t : EventEmitter) (e : Key) : List FuncId :=
  t.emitter.listeners e

/-- Facade `rawListeners`: forwards to the inner `rawListeners`. -/
def rawListeners (t : EventEmitter) (e : Key) : List FuncId :=
  t.emitter.rawListeners e

/-- Facade `listenerCount`: forwards to the inner `listenerCount`. -/
def listenerCount (t : EventEmitter) (e : Key) : Nat :=
  t.emitter.listenerCount e

/-- Facade `eventNames`: forwards to the inner `eventNames` (the cast is
purely static). -/
def eventNames (t : EventEmitter) : List Key :=
  t.emitter.eventNames

end EventEmitter

/-- One call of the public surface, used to compare whole call sequences on
the two layers.  An `emit` call carries its fuel. -/
inductive Call where
  | «on» (e : Key) (f : FuncId)
  | once (e : Key) (f : FuncId)
  | emit (fuel : Nat) (e : Key)
  | off (e : Key) (f : FuncId)
  | removeListener (e : Key) (f : FuncId)
  | removeAllListeners (e : Option Key)
  | listeners (e : Key)
  | rawListeners (e : Key)
  | listenerCount (e : Key)
  | eventNames
deriving DecidableEq, Repr

/-- The caller-visible result of one call: the chained `this` (no data), a
boolean with the ghost invocation log, a handler sequence, a count, or a
key collection. -/
inductive Obs where
  | self
  | bool (b : Bool) (log : List FuncId)
  | funcs (l : List FuncId)
  | count (n : Nat)
  | keys (l : List Key)
deriving DecidableEq, Repr

/-- One call on the untyped dispatcher: the successor state and the
observation (`none` only when an `emit` runs out of fuel). -/
def stepU (B : Bodies) (s : NodeEventEmitter) :
    Call → Option (NodeEventEmitter × Obs)
  | Call.«on» e f => some (s.«on» e f, Obs.self)
  | Call.once e f => some (s.once e f, Obs.self)
  | Call.emit fuel e => (s.emit B fuel e).map (fun p => (p.2.1, Obs.bool p.1 p.2.2))
  | Call.off e f => some (s.off e f, Obs.self)
  | Call.removeListener e f => some (s.removeListener e f, Obs.self)
  | Call.removeAllListeners e => some (s.removeAllListeners e, Obs.self)
  | Call.listeners e => some (s, Obs.funcs (s.listeners e))
  | Call.rawListeners e => some (s, Obs.funcs (s.rawListeners e))
  | Call.listenerCount e => some (s, Obs.count (s.listenerCount e))
  | Call.eventNames => some (s, Obs.keys s.eventNames)

/-- One call on the typed facade, via the facade methods. -/
def stepT (B : Bodies) (t : EventEmitter) :
    Call → Option (EventEmitter × Obs)
  | Call.«on» e f => some (t.«on» e f, Obs.self)
  | Call.once e f => some (t.once e f, Obs.self)
  | Call.emit fuel e => (t.emit B fuel e).map (fun p => (p.2.1, Obs.bool p.1 p.2.2))
  | Call.off e f => some (t.off e f, Obs.self)
  | Call.removeListener e f => some (t.removeListener e f, Obs.self)
  | Call.removeAllListeners e => some (t.removeAllListeners e, Obs.self)
  | Call.listeners e => some (t, Obs.funcs (t.listeners e))
  | Call.rawListeners e => some (t, Obs.funcs (t.rawListeners e))
  | Call.listenerCount e => some (t, Obs.count (t.listenerCount e))
  | Call.eventNames => some (t, Obs.keys t.eventNames)

/-- Run a call sequence on the untyped dispatcher, collecting the
observations. -/
def runU (B : Bodies) : List Call → NodeEventEmitter →
    Option (NodeEventEmitter × List Obs)
  | [], s => some (s, [])
  | c :: cs, s =>
      match stepU B s c with
      | none => none
      | some (s', o) =>
          match runU B cs s' with
          | none => none
          | some (s'', os) => some (s'', o :: os)

/-- Run a call sequence on the typed facade, collecting the observations. -/
def runT (B : Bodies) : List Call → EventEmitter →
    Option (EventEmitter × List Obs)
  | [], t => some (t, [])
  | c :: cs, t =>
      match stepT B t c with
      | none => none
      | some (t', o) =>
          match runT B cs t' with
          | none => none
          | some (t'', os) => some (t'', o :: os)

/-- Whether a body command registers a listener for the key `k`. -/
def Cmd.registersKey (k : Key) : Cmd → Bool
  | Cmd.«on» e _ => decide (e = k)
  | Cmd.once e _ => decide (e = k)
  | _ => false

/-- Whether a public call registers a listener for the key `k`. -/
def Call.registersKey (k : Key) : Call → Bool
  | Call.«on» e _ => decide (e = k)
  | Call.once e _ => decide (e = k)
  | _ => false

/-- Valid array references: every reference held in the registry points
into the heap.  Every state reachable from `init` satisfies this (the heap
only grows and references are handed out at allocation). -/
def WFRefs (s : NodeEventEmitter) : Prop :=
  ∀ p ∈ s.registry, p.2 < s.arrays.length

instance (s : NodeEventEmitter) : Decidable (WFRefs s) :=
  inferInstanceAs (Decidable (∀ p ∈ s.registry, p.2 < s.arrays.length))

/-! ### List helper lemmas -/

theorem getD_set_self {α : Type} (l : List α) (i : Nat) (v d : α) (h : i < l.length) :
    (l.set i v).getD i d = v := by
  rw [List.getD_eq_getD_get? _ d i, List.get?_eq_getElem? _ i,
    List.getElem?_set_eq_of_lt _ h]
  rfl

theorem getD_concat_length {α : Type} (l : List α) (x d : α) :
    (l ++ [x]).getD l.length d = x := by
  rw [List.getD_append_right _ _ _ _ (Nat.le_refl _), Nat.sub_self]
  rfl

theorem find?_append_of_none {α : Type} (p : α → Bool) (l1 l2 : List α)
    (h : l1.find? p = none) : (l1 ++ l2).find? p = l2.find? p := by
  induction l1 with
  | nil => rfl
  | cons a t ih =>
      cases hp : p a with
      | true =>
          rw [List.find?_cons_of_pos _ hp] at h
          exact absurd h (by simp)
      | false =>
          rw [List.find?_cons_of_neg _ (by simp [hp])] at h
          rw [List.cons_append, List.find?_cons_of_neg _ (by simp [hp]), ih h]

theorem find?_map_keep_keys (g : Key × Nat → Key × Nat)
    (hg : ∀ p, (g p).1 = p.1) (e : Key) (l : List (Key × Nat)) :
    (l.map g).find? (fun p => decide (p.1 = e))
      = (l.find? (fun p => decide (p.1 = e))).map g := by
  induction l with
  | nil => rfl
  | cons a t ih =>
      by_cases ha : a.1 = e
      · rw [List.map_cons, List.find?_cons_of_pos _ (by simp [hg, ha]),
          List.find?_cons_of_pos _ (by simp [ha])]
        rfl
      · rw [List.map_cons, List.find?_cons_of_neg _ (by simp [hg, ha]),
          List.find?_cons_of_neg _ (by simp [ha]), ih]

theorem map_fst_filter_ne (l : List Entry) (f : FuncId) :
    (l.filter (fun p => decide (p.1 ≠ f))).map Prod.fst
      = (l.map Prod.fst).filter (fun g => decide (g ≠ f)) := by
  induction l with
  | nil => rfl
  | cons a t ih =>
      simp only [decide_not] at ih ⊢
      by_cases ha : a.1 = f <;> simp [List.filter_cons, ha, ih]

namespace NodeEventEmitter

theorem lookupRef_eq_none_iff (s : NodeEventEmitter) (e : Key) :
    s.lookupRef e = none ↔ ∀ p ∈ s.registry, p.1 ≠ e := by
  simp [lookupRef, List.find?_eq_none]

theorem lookupRef_spec (s : NodeEventEmitter) (e : Key) (r : Nat)
    (h : s.lookupRef e = some r) :
    ∃ p, s.registry.find? (fun q => decide (q.1 = e)) = some p ∧
      p.1 = e ∧ p.2 = r ∧ p ∈ s.registry := by
  unfold lookupRef at h
  cases hf : s.registry.find? (fun q => decide (q.1 = e)) with
  | none => rw [hf] at h; simp at h
  | some p =>
      rw [hf] at h
      simp only [Option.map_some'] at h
      refine ⟨p, rfl, by simpa using List.find?_some hf, by simpa using h,
        List.mem_of_find?_eq_some hf⟩

theorem rawListeners_eq_listeners (s : NodeEventEmitter) (e : Key) :
    s.rawListeners e = s.listeners e := rfl

theorem listenerCount_eq_length (s : NodeEventEmitter) (e : Key) :
    s.listenerCount e = (s.listeners e).length := by
  cases hl : s.lookupRef e <;> simp [listenerCount, listeners, hl]

theorem listeners_entriesOf (s : NodeEventEmitter) (e : Key) :
    s.listeners e = (s.entriesOf e).map Prod.fst := by
  cases hl : s.lookupRef e <;> simp [listeners, entriesOf, hl]

theorem off_of_absent (s : NodeEventEmitter) (e : Key) (f : FuncId)
    (h : s.lookupRef e = none) : s.off e f = s := by
  simp [off, h]

theorem entriesOf_off (s : NodeEventEmitter) (e : Key) (f : FuncId) :
    (s.off e f).entriesOf e = (s.entriesOf e).filter (fun p => decide (p.1 ≠ f)) := by
  cases hl : s.lookupRef e with
  | none => simp [off_of_absent s e f hl, entriesOf, hl]
  | some r =>
      obtain ⟨p, hf, hp1, hp2, hmem⟩ := lookupRef_spec s e r hl
      have hreg : (s.off e f).registry
          = s.registry.map (fun q => if q.1 = e then (e, s.arrays.length) else q) := by
        simp [off, hl]
      have harr : (s.off e f).arrays
          = s.arrays ++ [(s.getArr r).filter (fun p => decide (p.1 ≠ f))] := by
        simp [off, hl]
      have hlook : (s.off e f).lookupRef e = some s.arrays.length := by
        unfold lookupRef
        rw [hreg, find?_map_keep_keys _ (fun q => by by_cases hq : q.1 = e <;> simp [hq]) e, hf]
        simp [hp1]
      simp only [entriesOf, hlook, hl, getArr, harr]
      rw [getD_concat_length]

theorem listeners_off (s : NodeEventEmitter) (e : Key) (f : FuncId) :
    (s.off e f).listeners e = (s.listeners e).filter (fun g => decide (g ≠ f)) := by
  rw [listeners_entriesOf, listeners_entriesOf, entriesOf_off, map_fst_filter_ne]

end NodeEventEmitter
namespace NodeEventEmitter

theorem lookupRef_on_absent (s : NodeEventEmitter) (e : Key) (f : FuncId)
    (h : s.lookupRef e = none) :
    (s.«on» e f).lookupRef e = some s.arrays.length := by
  have hfind : s.registry.find? (fun q => decide (q.1 = e)) = none :=
    Option.map_eq_none'.mp h
  unfold lookupRef
  simp only [«on», h]
  rw [find?_append_of_none _ _ _ hfind, List.find?_cons_of_pos _ (by simp)]
  rfl

theorem listeners_on (s : NodeEventEmitter) (e : Key) (f : FuncId) (h : WFRefs s) :
    (s.«on» e f).listeners e = s.listeners e ++ [f] := by
  cases hl : s.lookupRef e with
  | none =>
      have hlook := lookupRef_on_absent s e f hl
      simp only [listeners, hlook, hl, getArr]
      simp only [«on», hl]
      rw [getD_concat_length]
      simp
  | some r =>
      obtain ⟨p, hf, hp1, hp2, hmem⟩ := lookupRef_spec s e r hl
      have hr : r < s.arrays.length := hp2 ▸ h p hmem
      have hlook : (s.«on» e f).lookupRef e = some r := by
        unfold lookupRef
        simp only [«on», hl]
        exact hl
      simp only [listeners, hlook, hl, getArr]
      simp only [«on», hl]
      rw [getD_set_self _ _ _ _ hr]
      simp [getArr]

theorem lookupRef_once_absent (s : NodeEventEmitter) (e : Key) (f : FuncId)
    (h : s.lookupRef e = none) :
    (s.once e f).lookupRef e = some s.arrays.length := by
  have hfind : s.registry.find? (fun q => decide (q.1 = e)) = none :=
    Option.map_eq_none'.mp h
  unfold lookupRef
  simp only [once, h]
  rw [find?_append_of_none _ _ _ hfind, List.find?_cons_of_pos _ (by simp)]
  rfl

theorem listeners_once (s : NodeEventEmitter) (e : Key) (f : FuncId) (h : WFRefs s) :
    (s.once e f).listeners e = s.listeners e ++ [f] := by
  cases hl : s.lookupRef e with
  | none =>
      have hlook := lookupRef_once_absent s e f hl
      simp only [listeners, hlook, hl, getArr]
      simp only [once, hl]
      rw [getD_concat_length]
      simp
  | some r =>
      obtain ⟨p, hf, hp1, hp2, hmem⟩ := lookupRef_spec s e r hl
      have hr : r < s.arrays.length := hp2 ▸ h p hmem
      have hlook : (s.once e f).lookupRef e = some r := by
        unfold lookupRef
        simp only [once, hl]
        exact hl
      simp only [listeners, hlook, hl, getArr]
      simp only [once, hl]
      rw [getD_set_self _ _ _ _ hr]
      simp [getArr]

end NodeEventEmitter
namespace NodeEventEmitter

theorem lookupRef_on_preserves_none (s : NodeEventEmitter) (e : Key) (f : FuncId) (k : Key)
    (hk : e ≠ k) (h : s.lookupRef k = none) : (s.«on» e f).lookupRef k = none := by
  rw [lookupRef_eq_none_iff] at h ⊢
  cases hl : s.lookupRef e with
  | none =>
      simp only [«on», hl]
      intro p hp
      rcases List.mem_append.mp hp with hp | hp
      · exact h p hp
      · simp only [List.mem_singleton] at hp
        rw [hp]
        exact hk
  | some r =>
      simp only [«on», hl]
      exact h

theorem lookupRef_once_preserves_none (s : NodeEventEmitter) (e : Key) (f : FuncId) (k : Key)
    (hk : e ≠ k) (h : s.lookupRef k = none) : (s.once e f).lookupRef k = none := by
  rw [lookupRef_eq_none_iff] at h ⊢
  cases hl : s.lookupRef e with
  | none =>
      simp only [once, hl]
      intro p hp
      rcases List.mem_append.mp hp with hp | hp
      · exact h p hp
      · simp only [List.mem_singleton] at hp
        rw [hp]
        exact hk
  | some r =>
      simp only [once, hl]
      exact h

theorem lookupRef_off_preserves_none (s : NodeEventEmitter) (e : Key) (f : FuncId) (k : Key)
    (h : s.lookupRef k = none) : (s.off e f).lookupRef k = none := by
  rw [lookupRef_eq_none_iff] at h ⊢
  cases hl : s.lookupRef e with
  | none => simp only [off, hl]; exact h
  | some r =>
      simp only [off, hl]
      intro p hp
      rcases List.mem_map.mp hp with ⟨q, hq, rfl⟩
      by_cases hqe : q.1 = e
      · rw [if_pos hqe]
        exact fun hek => (h q hq) (hqe.trans hek)
      · rw [if_neg hqe]
        exact h q hq

theorem lookupRef_removeAll_preserves_none (s : NodeEventEmitter) (o : Option Key) (k : Key)
    (h : s.lookupRef k = none) : (s.removeAllListeners o).lookupRef k = none := by
  rw [lookupRef_eq_none_iff] at h ⊢
  cases o with
  | none => simp [removeAllListeners]
  | some q =>
      by_cases hq : keyFalsy q
      · simp [removeAllListeners, hq]
      · simp only [removeAllListeners, hq, Bool.false_eq_true, if_false]
        intro p hp
        exact h p (List.mem_of_mem_filter hp)

end NodeEventEmitter

theorem lookupRef_runCmd_none (s : NodeEventEmitter) (c : Cmd) (k : Key)
    (hc : Cmd.registersKey k c = false) (h : s.lookupRef k = none) :
    (runCmd s c).lookupRef k = none := by
  cases c with
  | «on» e f =>
      exact NodeEventEmitter.lookupRef_on_preserves_none s e f k
        (of_decide_eq_false (by simpa [Cmd.registersKey] using hc)) h
  | once e f =>
      exact NodeEventEmitter.lookupRef_once_preserves_none s e f k
        (of_decide_eq_false (by simpa [Cmd.registersKey] using hc)) h
  | off e f => exact NodeEventEmitter.lookupRef_off_preserves_none s e f k h
  | removeListener e f => exact NodeEventEmitter.lookupRef_off_preserves_none s e f k h
  | removeAllListeners o => exact NodeEventEmitter.lookupRef_removeAll_preserves_none s o k h

theorem lookupRef_foldl_runCmd_none (k : Key) (cmds : List Cmd) (s : NodeEventEmitter)
    (hc : ∀ c ∈ cmds, Cmd.registersKey k c = false) (h : s.lookupRef k = none) :
    (cmds.foldl runCmd s).lookupRef k = none := by
  induction cmds generalizing s with
  | nil => exact h
  | cons c cs ih =>
      exact ih _ (fun c' hc' => hc c' (List.mem_cons_of_mem _ hc'))
        (lookupRef_runCmd_none s c k (hc c (List.mem_cons_self _ _)) h)

theorem lookupRef_runBody_none (B : Bodies) (k : Key)
    (hB : ∀ f c, c ∈ B f → Cmd.registersKey k c = false)
    (s : NodeEventEmitter) (f : FuncId) (h : s.lookupRef k = none) :
    (runBody B s f).lookupRef k = none :=
  lookupRef_foldl_runCmd_none k (B f) s (hB f) h

theorem lookupRef_invokeTarget_none (B : Bodies) (k : Key)
    (hB : ∀ f c, c ∈ B f → Cmd.registersKey k c = false)
    (s : NodeEventEmitter) (log : List FuncId) (t : Target)
    (h : s.lookupRef k = none) :
    ((invokeTarget B s log t).1).lookupRef k = none := by
  cases t with
  | plain f => exact lookupRef_runBody_none B k hB s f h
  | wrapper e f =>
      exact lookupRef_runBody_none B k hB _ f
        (NodeEventEmitter.lookupRef_off_preserves_none s e f k h)

theorem lookupRef_emitLoop_none (B : Bodies) (k : Key)
    (hB : ∀ f c, c ∈ B f → Cmd.registersKey k c = false) :
    ∀ (fuel r i : Nat) (s : NodeEventEmitter) (log : List FuncId)
      (s' : NodeEventEmitter) (log' : List FuncId),
      s.lookupRef k = none → emitLoop B fuel r i s log = some (s', log') →
      s'.lookupRef k = none := by
  intro fuel
  induction fuel with
  | zero =>
      intro r i s log s' log' h hrun
      exact absurd hrun (by simp [emitLoop])
  | succ n ih =>
      intro r i s log s' log' h hrun
      unfold emitLoop at hrun
      simp only [] at hrun
      split at hrun
      · exact ih _ _ _ _ _ _ (lookupRef_invokeTarget_none B k hB s log _ h) hrun
      · obtain ⟨rfl, rfl⟩ : s = s' ∧ log = log' := by
          simpa using hrun
        exact h

theorem emit_absent (B : Bodies) (fuel : Nat) (s : NodeEventEmitter) (e : Key)
    (h : s.lookupRef e = none) : s.emit B fuel e = some (false, s, []) := by
  simp [NodeEventEmitter.emit, h]

theorem lookupRef_emit_none (B : Bodies) (k : Key)
    (hB : ∀ f c, c ∈ B f → Cmd.registersKey k c = false)
    (fuel : Nat) (s : NodeEventEmitter) (e : Key) (b : Bool)
    (s' : NodeEventEmitter) (log : List FuncId)
    (h : s.lookupRef k = none) (hrun : s.emit B fuel e = some (b, s', log)) :
    s'.lookupRef k = none := by
  unfold NodeEventEmitter.emit at hrun
  cases hl : s.lookupRef e with
  | none =>
      rw [hl] at hrun
      obtain ⟨rfl, rfl, rfl⟩ : false = b ∧ s = s' ∧ ([] : List FuncId) = log := by
        simpa using hrun
      exact h
  | some r =>
      rw [hl] at hrun
      dsimp only at hrun
      cases hloop : emitLoop B fuel r 0 s [] with
      | none => rw [hloop] at hrun; simp at hrun
      | some p =>
          obtain ⟨ps, pl⟩ := p
          rw [hloop] at hrun
          simp only [Option.map_some', Option.some.injEq, Prod.mk.injEq] at hrun
          obtain ⟨h3, h5, h6⟩ := hrun
          subst h3
          subst h5
          subst h6
          exact lookupRef_emitLoop_none B k hB fuel r 0 s [] ps pl h hloop

theorem lookupRef_stepU_none (B : Bodies) (k : Key)
    (hB : ∀ f c, c ∈ B f → Cmd.registersKey k c = false)
    (s : NodeEventEmitter) (c : Call) (s' : NodeEventEmitter) (o : Obs)
    (hc : Call.registersKey k c = false)
    (h : s.lookupRef k = none) (hstep : stepU B s c = some (s', o)) :
    s'.lookupRef k = none := by
  cases c with
  | «on» e f =>
      obtain ⟨rfl, rfl⟩ : s.«on» e f = s' ∧ Obs.self = o := by simpa [stepU] using hstep
      exact NodeEventEmitter.lookupRef_on_preserves_none s e f k
        (of_decide_eq_false (by simpa [Call.registersKey] using hc)) h
  | once e f =>
      obtain ⟨rfl, rfl⟩ : s.once e f = s' ∧ Obs.self = o := by simpa [stepU] using hstep
      exact NodeEventEmitter.lookupRef_once_preserves_none s e f k
        (of_decide_eq_false (by simpa [Call.registersKey] using hc)) h
  | emit fuel e =>
      simp only [stepU] at hstep
      cases hrun : s.emit B fuel e with
      | none => rw [hrun] at hstep; simp at hstep
      | some q =>
          rw [hrun] at hstep
          obtain ⟨rfl, rfl⟩ : q.2.1 = s' ∧ Obs.bool q.1 q.2.2 = o := by simpa using hstep
          exact lookupRef_emit_none B k hB fuel s e q.1 q.2.1 q.2.2 h (by simpa using hrun)
  | off e f =>
      obtain ⟨rfl, rfl⟩ : s.off e f = s' ∧ Obs.self = o := by simpa [stepU] using hstep
      exact NodeEventEmitter.lookupRef_off_preserves_none s e f k h
  | removeListener e f =>
      obtain ⟨rfl, rfl⟩ : s.removeListener e f = s' ∧ Obs.self = o := by
        simpa [stepU] using hstep
      exact NodeEventEmitter.lookupRef_off_preserves_none s e f k h
  | removeAllListeners oe =>
      obtain ⟨rfl, rfl⟩ : s.removeAllListeners oe = s' ∧ Obs.self = o := by
        simpa [stepU] using hstep
      exact NodeEventEmitter.lookupRef_removeAll_preserves_none s oe k h
  | listeners e =>
      obtain ⟨rfl, rfl⟩ : s = s' ∧ Obs.funcs (s.listeners e) = o := by simpa [stepU] using hstep
      exact h
  | rawListeners e =>
      obtain ⟨rfl, rfl⟩ : s = s' ∧ Obs.funcs (s.rawListeners e) = o := by simpa [stepU] using hstep
      exact h
  | listenerCount e =>
      obtain ⟨rfl, rfl⟩ : s = s' ∧ Obs.count (s.listenerCount e) = o := by simpa [stepU] using hstep
      exact h
  | eventNames =>
      obtain ⟨rfl, rfl⟩ : s = s' ∧ Obs.keys s.eventNames = o := by simpa [stepU] using hstep
      exact h

theorem lookupRef_runU_none (B : Bodies) (k : Key)
    (hB : ∀ f c, c ∈ B f → Cmd.registersKey k c = false) :
    ∀ (calls : List Call) (s : NodeEventEmitter) (s' : NodeEventEmitter) (os : List Obs),
      (∀ c ∈ calls, Call.registersKey k c = false) →
      s.lookupRef k = none → runU B calls s = some (s', os) →
      s'.lookupRef k = none := by
  intro calls
  induction calls with
  | nil =>
      intro s s' os _ h hrun
      obtain ⟨rfl, rfl⟩ : s = s' ∧ ([] : List Obs) = os := by simpa [runU] using hrun
      exact h
  | cons c cs ih =>
      intro s s' os hc h hrun
      unfold runU at hrun
      cases hstep : stepU B s c with
      | none => rw [hstep] at hrun; simp at hrun
      | some p =>
          obtain ⟨s1, o1⟩ := p
          rw [hstep] at hrun
          dsimp only at hrun
          cases hrest : runU B cs s1 with
          | none => rw [hrest] at hrun; simp at hrun
          | some q =>
              obtain ⟨s2, os2⟩ := q
              rw [hrest] at hrun
              dsimp only at hrun
              obtain ⟨rfl, rfl⟩ : s2 = s' ∧ o1 :: os2 = os := by simpa using hrun
              exact ih s1 s2 os2 (fun c' hc' => hc c' (List.mem_cons_of_mem _ hc'))
                (lookupRef_stepU_none B k hB s c s1 o1
                  (hc c (List.mem_cons_self _ _)) h hstep)
                hrest

theorem stepT_eq_stepU (B : Bodies) (t : EventEmitter) (c : Call) :
    stepT B t c = (stepU B t.emitter c).map (fun p => (EventEmitter.mk p.1, p.2)) := by
  cases c with
  | emit fuel e =>
      simp only [stepT, stepU, EventEmitter.emit]
      cases h : t.emitter.emit B fuel e <;> simp [h]
  | «on» e f => rfl
  | once e f => rfl
  | off e f => rfl
  | removeListener e f => rfl
  | removeAllListeners oe => rfl
  | listeners e => rfl
  | rawListeners e => rfl
  | listenerCount e => rfl
  | eventNames => rfl

theorem runT_eq_runU (B : Bodies) :
    ∀ (calls : List Call) (t : EventEmitter),
      runT B calls t = (runU B calls t.emitter).map (fun p => (EventEmitter.mk p.1, p.2)) := by
  intro calls
  induction calls with
  | nil => intro t; rfl
  | cons c cs ih =>
      intro t
      unfold runT runU
      rw [stepT_eq_stepU]
      cases hstep : stepU B t.emitter c with
      | none => rfl
      | some p =>
          obtain ⟨s1, o1⟩ := p
          dsimp only [Option.map_some']
          rw [ih ⟨s1⟩]
          cases hrest : runU B cs s1 with
          | none => rfl
          | some q => rfl

/-! ### Claim theorems -/

/-- C1: for every event key `E` and plain handler `f` (a handler whose body
performs no registrations), after a single `once(E, f)` registration on a
fresh dispatcher and no other registrations for `E`, two sequential
`emit(E)` calls invoke `f` exactly once in total — the first emit's
invocation log is `[f]`, the second's is `[]` — and after the first emit
returns, `listenerCount(E)` equals `0`.  The result is independent of the
fuel, provided it covers the loop steps. -/
theorem once_then_two_emits_invokes_once (B : Bodies) (e : Key) (f : FuncId)
    (hf : B f = []) (fuel : Nat) :
    ∃ s1 : NodeEventEmitter,
      (NodeEventEmitter.init.once e f).emit B (fuel + 2) e = some (true, s1, [f]) ∧
      s1.listenerCount e = 0 ∧
      s1.emit B (fuel + 1) e = some (true, s1, []) := by
  refine ⟨⟨[[(f, Target.wrapper e f)], []], [(e, 1)]⟩, ?_, ?_, ?_⟩
  · have h0 : NodeEventEmitter.init.once e f
        = ⟨[[(f, Target.wrapper e f)]], [(e, 0)]⟩ := rfl
    rw [h0]
    simp [NodeEventEmitter.emit, emitLoop, invokeTarget, runBody, hf,
      NodeEventEmitter.off, NodeEventEmitter.lookupRef, NodeEventEmitter.getArr,
      List.find?]
  · simp [NodeEventEmitter.listenerCount, NodeEventEmitter.lookupRef,
      NodeEventEmitter.getArr, List.find?]
  · simp [NodeEventEmitter.emit, emitLoop, NodeEventEmitter.lookupRef,
      NodeEventEmitter.getArr, List.find?]

/-- Witness for C1 at the concrete input `E = sym 0`, `f = 0`, empty bodies,
fuel `0`. -/
theorem once_then_two_emits_invokes_once_witness :
    ∃ s1 : NodeEventEmitter,
      (NodeEventEmitter.init.once (Key.sym 0) 0).emit (fun _ => []) 2 (Key.sym 0)
        = some (true, s1, [0]) ∧
      s1.listenerCount (Key.sym 0) = 0 ∧
      s1.emit (fun _ => []) 1 (Key.sym 0) = some (true, s1, []) :=
  once_then_two_emits_invokes_once (fun _ => []) (Key.sym 0) 0 rfl 0

/-- C2 (failing input): on a fresh dispatcher, register `f` for key `sym 0`
where `f`'s body registers `g = 1` for the same key via `on`; a single
`emit` then invokes BOTH `f` and `g` — the invocation log is `[0, 1]` — so
the listener registered during the ongoing emit IS invoked during that same
emit: the loop iterates the live array that `on` pushes onto, not a stable
snapshot taken when iteration begins. -/
theorem emit_sees_listener_added_during_emit :
    (NodeEventEmitter.init.«on» (Key.sym 0) 0).emit
        (fun n => if n = 0 then [Cmd.«on» (Key.sym 0) 1] else []) 3 (Key.sym 0)
      = some (true,
          ⟨[[(0, Target.plain 0), (1, Target.plain 1)]], [(Key.sym 0, 0)]⟩,
          [0, 1]) := by
  rfl

/-- C3 (failing input): register the same handler `f = 0` for key `sym 0`
via `on` and then via `once`; a single `emit` invokes `f` twice (log
`[0, 0]`) and afterwards `listenerCount` is `0` and `listeners` is empty:
the wrapper's `removeListener(event, listener)` removed BOTH entries whose
original handler is `f`, including the sibling `on` registration, not only
its own entry. -/
theorem once_wrapper_removes_sibling_entries :
    ((NodeEventEmitter.init.«on» (Key.sym 0) 0).once (Key.sym 0) 0).emit
        (fun _ => []) 3 (Key.sym 0)
      = some (true,
          ⟨[[(0, Target.plain 0), (0, Target.wrapper (Key.sym 0) 0)], []],
            [(Key.sym 0, 1)]⟩,
          [0, 0]) ∧
    (⟨[[(0, Target.plain 0), (0, Target.wrapper (Key.sym 0) 0)], []],
        [(Key.sym 0, 1)]⟩ : NodeEventEmitter).listenerCount (Key.sym 0) = 0 ∧
    (⟨[[(0, Target.plain 0), (0, Target.wrapper (Key.sym 0) 0)], []],
        [(Key.sym 0, 1)]⟩ : NodeEventEmitter).listeners (Key.sym 0) = [] := by
  exact ⟨rfl, rfl, rfl⟩

/-- C4: `off(E, f)` removes exactly the entries whose ORIGINAL handler
equals `f` (so a pending `once` entry is matched by the handler passed to
`once`, not by the wrapper), preserving the relative order of the remaining
entries; when no sequence exists for `E` the whole state is unchanged. -/
theorem off_removes_all_matching_preserving_order (s : NodeEventEmitter)
    (e : Key) (f : FuncId) :
    (s.lookupRef e = none → s.off e f = s) ∧
    (s.off e f).entriesOf e = (s.entriesOf e).filter (fun p => decide (p.1 ≠ f)) ∧
    (s.off e f).listeners e = (s.listeners e).filter (fun g => decide (g ≠ f)) :=
  ⟨fun h => NodeEventEmitter.off_of_absent s e f h,
   NodeEventEmitter.entriesOf_off s e f,
   NodeEventEmitter.listeners_off s e f⟩

/-- Witness for C4: on a fresh dispatcher `off` is the identity (the
absent-key implication discharged at `E = sym 0`), and on a state holding
`on(E, 0)`, `on(E, 1)`, `once(E, 0)` it removes both entries with original
handler `0` and keeps `1`. -/
theorem off_removes_all_matching_preserving_order_witness :
    NodeEventEmitter.init.off (Key.sym 0) 0 = NodeEventEmitter.init ∧
    ((⟨[[(0, Target.plain 0), (1, Target.plain 1), (0, Target.wrapper (Key.sym 0) 0)]],
        [(Key.sym 0, 0)]⟩ : NodeEventEmitter).off (Key.sym 0) 0).entriesOf (Key.sym 0)
      = [(1, Target.plain 1)] ∧
    ((⟨[[(0, Target.plain 0), (1, Target.plain 1), (0, Target.wrapper (Key.sym 0) 0)]],
        [(Key.sym 0, 0)]⟩ : NodeEventEmitter).off (Key.sym 0) 0).listeners (Key.sym 0)
      = [1] := by
  refine ⟨(off_removes_all_matching_preserving_order NodeEventEmitter.init
    (Key.sym 0) 0).1 rfl, ?_, ?_⟩
  · rw [(off_removes_all_matching_preserving_order _ (Key.sym 0) 0).2.1]
    decide
  · rw [(off_removes_all_matching_preserving_order _ (Key.sym 0) 0).2.2]
    decide

/-- C5: for every event key `k` on which no registration is ever performed
— no call of the sequence and no handler body registers for `k` — running
any call sequence from a fresh dispatcher yields a state where `emit(k)`
returns `false` with the state unchanged and nothing invoked (for every
fuel), `listenerCount(k)` is `0`, and `listeners(k)` and `rawListeners(k)`
are empty. -/
theorem never_registered_emit_false_count_zero (B : Bodies) (k : Key)
    (calls : List Call) (s : NodeEventEmitter) (os : List Obs)
    (hB : ∀ f c, c ∈ B f → Cmd.registersKey k c = false)
    (hcalls : ∀ c ∈ calls, Call.registersKey k c = false)
    (hrun : runU B calls NodeEventEmitter.init = some (s, os)) :
    (∀ fuel, s.emit B fuel k = some (false, s, [])) ∧
    s.listenerCount k = 0 ∧ s.listeners k = [] ∧ s.rawListeners k = [] := by
  have h : s.lookupRef k = none :=
    lookupRef_runU_none B k hB calls NodeEventEmitter.init s os hcalls rfl hrun
  exact ⟨fun fuel => emit_absent B fuel s k h,
    by simp [NodeEventEmitter.listenerCount, h],
    by simp [NodeEventEmitter.listeners, h],
    by simp [NodeEventEmitter.rawListeners, h]⟩

/-- Witness for C5: the sequence `on(sym 0, 0); emit(sym 0); off(sym 0, 0)`
with empty handler bodies never registers for `sym 1`, and the resulting
state treats `sym 1` as unregistered. -/
theorem never_registered_emit_false_count_zero_witness :
    ((⟨[[(0, Target.plain 0)], []], [(Key.sym 0, 1)]⟩ : NodeEventEmitter).emit
        (fun _ => []) 0 (Key.sym 1)
      = some (false, ⟨[[(0, Target.plain 0)], []], [(Key.sym 0, 1)]⟩, [])) ∧
    (⟨[[(0, Target.plain 0)], []], [(Key.sym 0, 1)]⟩ : NodeEventEmitter).listenerCount
        (Key.sym 1) = 0 ∧
    (⟨[[(0, Target.plain 0)], []], [(Key.sym 0, 1)]⟩ : NodeEventEmitter).listeners
        (Key.sym 1) = [] ∧
    (⟨[[(0, Target.plain 0)], []], [(Key.sym 0, 1)]⟩ : NodeEventEmitter).rawListeners
        (Key.sym 1) = [] := by
  have h := never_registered_emit_false_count_zero (fun _ => []) (Key.sym 1)
    [Call.«on» (Key.sym 0) 0, Call.emit 3 (Key.sym 0), Call.off (Key.sym 0) 0]
    ⟨[[(0, Target.plain 0)], []], [(Key.sym 0, 1)]⟩
    [Obs.self, Obs.bool true [0], Obs.self]
    (fun f c hc => absurd hc (List.not_mem_nil c))
    (by decide) rfl
  exact ⟨h.1 0, h.2.1, h.2.2.1, h.2.2.2⟩

/-- C6 (failing input): registering a handler for the SYMBOL key `sym 0`
produces a registered, non-deleted listener sequence (its `listenerCount`
is `1`), yet `eventNames()` returns the empty collection: `Object.keys`
omits symbol keys, so symbol-keyed events never appear in `eventNames()`. -/
theorem eventNames_omits_symbol_keys :
    (NodeEventEmitter.init.«on» (Key.sym 0) 0).eventNames = [] ∧
    (NodeEventEmitter.init.«on» (Key.sym 0) 0).listenerCount (Key.sym 0) = 1 := by
  exact ⟨rfl, rfl⟩

/-- C7 (failing input): with listeners registered both for the empty-string
key and for the distinct key `sym 1`, calling `removeAllListeners("")` with
the empty string AS ARGUMENT falls into the falsy `!event` branch and
clears the ENTIRE registry: the listener sequence of the other key `sym 1`
(count `1` before the call) is gone afterwards (count `0`), although the
claim requires every other event's sequence to be unchanged. -/
theorem removeAllListeners_empty_string_clears_other_events :
    ((NodeEventEmitter.init.«on» (Key.str ("")) 0).«on» (Key.sym 1) 1).listenerCount
        (Key.sym 1) = 1 ∧
    ((NodeEventEmitter.init.«on» (Key.str ("")) 0).«on» (Key.sym 1) 1).removeAllListeners
        (some (Key.str ("")))
      = ⟨[[(0, Target.plain 0)], [(1, Target.plain 1)]], []⟩ ∧
    (((NodeEventEmitter.init.«on» (Key.str ("")) 0).«on» (Key.sym 1) 1).removeAllListeners
        (some (Key.str ("")))).listenerCount (Key.sym 1) = 0 := by
  exact ⟨rfl, rfl, rfl⟩

/-- C8: for every state with valid array references, `listeners` and
`rawListeners` return the same ordered sequence, `listenerCount` equals its
length, and each registration — `on` as well as `once` — appends the
ORIGINAL handler (never a wrapper) at the end of the caller-visible
sequence, so the sequence lists original handlers in registration order. -/
theorem listeners_raw_count_agree (s : NodeEventEmitter) (e : Key) (f : FuncId)
    (h : WFRefs s) :
    s.rawListeners e = s.listeners e ∧
    s.listenerCount e = (s.listeners e).length ∧
    (s.«on» e f).listeners e = s.listeners e ++ [f] ∧
    (s.once e f).listeners e = s.listeners e ++ [f] :=
  ⟨NodeEventEmitter.rawListeners_eq_listeners s e,
   NodeEventEmitter.listenerCount_eq_length s e,
   NodeEventEmitter.listeners_on s e f h,
   NodeEventEmitter.listeners_once s e f h⟩

/-- Witness for C8 at a concrete state holding one listener for `sym 0`,
adding handler `1`. -/
theorem listeners_raw_count_agree_witness :
    (⟨[[(0, Target.plain 0)]], [(Key.sym 0, 0)]⟩ : NodeEventEmitter).rawListeners
        (Key.sym 0)
      = (⟨[[(0, Target.plain 0)]], [(Key.sym 0, 0)]⟩ : NodeEventEmitter).listeners
        (Key.sym 0) ∧
    (⟨[[(0, Target.plain 0)]], [(Key.sym 0, 0)]⟩ : NodeEventEmitter).listenerCount
        (Key.sym 0)
      = ((⟨[[(0, Target.plain 0)]], [(Key.sym 0, 0)]⟩ : NodeEventEmitter).listeners
        (Key.sym 0)).length ∧
    ((⟨[[(0, Target.plain 0)]], [(Key.sym 0, 0)]⟩ : NodeEventEmitter).«on» (Key.sym 0)
        1).listeners (Key.sym 0)
      = (⟨[[(0, Target.plain 0)]], [(Key.sym 0, 0)]⟩ : NodeEventEmitter).listeners
        (Key.sym 0) ++ [1] ∧
    ((⟨[[(0, Target.plain 0)]], [(Key.sym 0, 0)]⟩ : NodeEventEmitter).once (Key.sym 0)
        1).listeners (Key.sym 0)
      = (⟨[[(0, Target.plain 0)]], [(Key.sym 0, 0)]⟩ : NodeEventEmitter).listeners
        (Key.sym 0) ++ [1] :=
  listeners_raw_count_agree ⟨[[(0, Target.plain 0)]], [(Key.sym 0, 0)]⟩ (Key.sym 0) 1
    (by decide)

/-- C9: running any sequence of public calls through the typed facade
produces exactly the observations of the untyped dispatcher run on the same
calls, and a final facade state wrapping exactly the dispatcher's final
state — the facade is a runtime-transparent forwarder. -/
theorem typed_facade_runtime_equal (B : Bodies) (calls : List Call)
    (t : EventEmitter) :
    runT B calls t
      = (runU B calls t.emitter).map (fun p => (EventEmitter.mk p.1, p.2)) :=
  runT_eq_runU B calls t

/-- C10: for every key `E` and distinct handlers `f`, `g` where `f`'s body
removes `g` via `off` and `g` is a plain handler, emitting to a fresh
dispatcher holding `on(E, f); on(E, g)` still invokes `g` during that emit
(log `[f, g]`) even though `f` ran first and deregistered `g`: `off`
replaced the registry binding with a filtered copy while the loop went on
iterating the array object it started with.  Afterwards only `f` remains
registered. -/
theorem off_during_emit_does_not_prevent_invocation (B : Bodies) (e : Key)
    (f g : FuncId) (hfg : f ≠ g) (hf : B f = [Cmd.off e g]) (hg : B g = [])
    (fuel : Nat) :
    ∃ s1 : NodeEventEmitter,
      ((NodeEventEmitter.init.«on» e f).«on» e g).emit B (fuel + 3) e
        = some (true, s1, [f, g]) ∧
      s1.listeners e = [f] := by
  have h0 : (NodeEventEmitter.init.«on» e f).«on» e g
      = ⟨[[(f, Target.plain f), (g, Target.plain g)]], [(e, 0)]⟩ := by
    simp [NodeEventEmitter.«on», NodeEventEmitter.lookupRef, NodeEventEmitter.getArr,
      NodeEventEmitter.init, List.find?]
  refine ⟨⟨[[(f, Target.plain f), (g, Target.plain g)], [(f, Target.plain f)]],
    [(e, 1)]⟩, ?_, ?_⟩
  · rw [h0]
    simp [NodeEventEmitter.emit, emitLoop, invokeTarget, runBody, runCmd, hf, hg, hfg,
      NodeEventEmitter.off, NodeEventEmitter.lookupRef, NodeEventEmitter.getArr,
      List.find?, Ne.symm hfg]
  · simp [NodeEventEmitter.listeners, NodeEventEmitter.lookupRef,
      NodeEventEmitter.getArr, List.find?]

/-- Witness for C10 at `E = sym 7`, `f = 0`, `g = 1`, fuel `0`. -/
theorem off_during_emit_does_not_prevent_invocation_witness :
    ∃ s1 : NodeEventEmitter,
      ((NodeEventEmitter.init.«on» (Key.sym 7) 0).«on» (Key.sym 7) 1).emit
          (fun n => if n = 0 then [Cmd.off (Key.sym 7) 1] else []) 3 (Key.sym 7)
        = some (true, s1, [0, 1]) ∧
      s1.listeners (Key.sym 7) = [0] :=
  off_during_emit_does_not_prevent_invocation
    (fun n => if n = 0 then [Cmd.off (Key.sym 7) 1] else [])
    (Key.sym 7) 0 1 (by decide) rfl rfl 0
